import Mathlib

/-!
Shallow embedding of the connection registry, room allocation and message
routing of `webrtc-signaling-server.py` (the signaling server of
webrtc-friends), together with proofs about the embedded operations.

Modelling conventions:
* Python dicts keyed by client id are insertion-ordered association lists
  `List (Int × α)` whose keys are unique in every reachable state; `del d[k]`
  is key-filtering, `d[k] = v` updates in place when the key is present and
  appends otherwise.  `active_connections` keeps only the keys (ids): the
  websocket handles themselves carry no registry-relevant data.
* Client ids are `Int` (Python ints), room names are `String`.
* The unbounded `while True` probe loop of `find_available_room` is modelled
  with explicit fuel, `none` standing for divergence; a totality theorem
  shows the chosen fuel is large enough whenever the capacity is positive.
* A raised exception in the per-connection handler is an explicit outcome
  (`StepResult.raised`, or `none` for the helper routers).
-/

/-- Value of `d.get(k)` on an association list. -/
def lookupA {α : Type} (l : List (Int × α)) (k : Int) : Option α :=
  (l.find? (fun p => p.1 == k)).map (fun p => p.2)

/-- Effect of `del d[k]`: on unique-key lists this removes the one pair keyed `k`. -/
def eraseA {α : Type} (l : List (Int × α)) (k : Int) : List (Int × α) :=
  l.filter (fun p => p.1 != k)

/-- Effect of `d[k] = v`: update in place when the key is present, else append. -/
def insertA {α : Type} (l : List (Int × α)) (k : Int) (v : α) : List (Int × α) :=
  if (l.find? (fun p => p.1 == k)).isSome then
    l.map (fun p => if p.1 == k then (k, v) else p)
  else l ++ [(k, v)]

/-- Python truthiness of an optional string: `None` and `""` are falsy. -/
def truthyStr : Option String → Bool
  | none => false
  | some s => s != ""

/-- Python `a or b` on two optional strings (first truthy value, else `b`). -/
def pyOrStr (a b : Option String) : Option String :=
  if truthyStr a then a else b

/-- Python `a or d` where `d` is a (truthy) string literal. -/
def pyOrDefault (a : Option String) (d : String) : String :=
  if truthyStr a then a.getD d else d

/-- State of `ConnectionManager` (lines 46-53 of the source). -/
structure ConnectionManager where
  active_connections : List Int
  client_names : List (Int × String)
  client_rooms : List (Int × String)
  client_ips : List (Int × String)
  client_counter : Int
  max_peers_per_room : Nat
deriving Repr, DecidableEq

/-- `ConnectionManager.__init__` with the given `max_peers_per_room`. -/
def ConnectionManager.init (maxPeers : Nat) : ConnectionManager :=
  { active_connections := []
    client_names := []
    client_rooms := []
    client_ips := []
    client_counter := 0
    max_peers_per_room := maxPeers }

/-- `ConnectionManager.disconnect` (lines 55-64): remove every record of
`client_id`, a no-op when the id holds no connection. -/
def ConnectionManager.disconnect (st : ConnectionManager) (client_id : Int) :
    ConnectionManager :=
  if client_id ∈ st.active_connections then
    { st with
      active_connections := st.active_connections.filter (fun c => c != client_id)
      client_names := eraseA st.client_names client_id
      client_rooms := eraseA st.client_rooms client_id
      client_ips := eraseA st.client_ips client_id }
  else st

/-- `ConnectionManager.register_client` (lines 66-72): insert the connection,
ip and room records, and the name record when the name is truthy. -/
def ConnectionManager.register_client (st : ConnectionManager) (client_id : Int)
    (room_id : String) (ip_address : String) (peer_name : Option String) :
    ConnectionManager :=
  { st with
    active_connections :=
      if client_id ∈ st.active_connections then st.active_connections
      else st.active_connections ++ [client_id]
    client_ips := insertA st.client_ips client_id ip_address
    client_rooms := insertA st.client_rooms client_id room_id
    client_names :=
      if truthyStr peer_name then insertA st.client_names client_id (peer_name.getD "")
      else st.client_names }

/-- `ConnectionManager.get_peers_in_room` (lines 74-76): ids of the clients
whose room assignment equals exactly `room_id`. -/
def ConnectionManager.get_peers_in_room (st : ConnectionManager) (room_id : String) :
    List Int :=
  (st.client_rooms.filter (fun p => p.2 == room_id)).map (fun p => p.1)

/-- Name of the `overflow_index`-th overflow room: `f"{requested_room}_{overflow_index}"`. -/
def overflowName (requested_room : String) (overflow_index : Nat) : String :=
  requested_room ++ "_" ++ Nat.repr overflow_index

/-- Probe loop of `find_available_room` (lines 116-122).  The Python loop is
unbounded; it is modelled with explicit fuel and `none` stands for
divergence.  `find_available_room` supplies fuel that is provably sufficient
whenever `max_peers_per_room ≥ 1`. -/
def ConnectionManager.findOverflow (st : ConnectionManager) (requested_room : String) :
    Nat → Nat → Option (String × Bool)
  | _, 0 => none
  | overflow_index, fuel + 1 =>
    let overflow_room := overflowName requested_room overflow_index
    if (st.get_peers_in_room overflow_room).length < st.max_peers_per_room then
      some (overflow_room, true)
    else st.findOverflow requested_room (overflow_index + 1) fuel

/-- `ConnectionManager.find_available_room` (lines 104-122): the requested
room when it has a free slot, else the first free overflow room. -/
def ConnectionManager.find_available_room (st : ConnectionManager)
    (requested_room : String) : Option (String × Bool) :=
  if (st.get_peers_in_room requested_room).length < st.max_peers_per_room then
    some (requested_room, false)
  else st.findOverflow requested_room 1 (st.client_rooms.length + 1)

/-- `ConnectionManager.send_personal_message` (lines 124-129): delivered only
when the target holds a connection; a send failure is swallowed. -/
def ConnectionManager.send_personal_message {α : Type} (st : ConnectionManager)
    (message : α) (client_id : Int) : List (Int × α) :=
  if client_id ∈ st.active_connections then [(client_id, message)] else []

/-- Recipient filter of `ConnectionManager.broadcast` (lines 134-137): every
connection other than `exclude_client_id`, restricted to `room_id` when a
room is given. -/
def ConnectionManager.broadcastRecipients (st : ConnectionManager)
    (exclude_client_id : Option Int) (room_id : Option String) : List Int :=
  st.active_connections.filter (fun cid =>
    some cid != exclude_client_id &&
    (room_id.isNone || lookupA st.client_rooms cid == room_id))

/-- `ConnectionManager.broadcast` (lines 131-146): the deliveries made and the
state after cleaning up the recipients whose send raised.  `failed` is the
set of clients whose `send_json` fails; each failed recipient is disconnected
after the loop, and a failure never stops the remaining sends. -/
def ConnectionManager.broadcast {α : Type} (st : ConnectionManager) (message : α)
    (exclude_client_id : Option Int) (room_id : Option String) (failed : List Int) :
    List (Int × α) × ConnectionManager :=
  let recips := st.broadcastRecipients exclude_client_id room_id
  let delivered := (recips.filter (fun c => !failed.contains c)).map (fun c => (c, message))
  let disconnected_clients := recips.filter (fun c => failed.contains c)
  (delivered, disconnected_clients.foldl (fun s c => s.disconnect c) st)

/-- Raw value of a `targetId` field: `int(x)` either yields an integer or
raises (for a value that is not integer-coercible). -/
inductive TargetVal where
  | val (n : Int)
  | notAnInt
deriving Repr, DecidableEq

/-- `int(...)` on a raw `targetId` value: `none` when it raises. -/
def pyInt : TargetVal → Option Int
  | .val n => some n
  | .notAnInt => none

/-- Fields of one inbound JSON object that the server ever reads.  `mtype` is
the JSON key `"type"` (a Lean keyword); `name` is the JSON key `"name"`. -/
structure MsgData where
  mtype : Option String
  peerName : Option String
  name : Option String
  roomId : Option String
  targetId : Option TargetVal
  text : Option String
  senderName : Option String
  timestamp : Option Int
  isMuted : Option Bool
deriving Repr, DecidableEq

/-- A `MsgData` with every field absent. -/
def MsgData.empty : MsgData :=
  { mtype := none, peerName := none, name := none, roomId := none,
    targetId := none, text := none, senderName := none, timestamp := none,
    isMuted := none }

/-- One inbound transport frame: a JSON object, or anything else (non-JSON
text or a non-object JSON value), on which `receive_json` or the immediately
following `data.get` raises. -/
inductive Frame where
  | obj (data : MsgData)
  | malformed
deriving Repr, DecidableEq

/-- Outbound messages synthesized or forwarded by the server. -/
inductive OutMsg where
  | forwarded (data : MsgData) (senderId : Int)
  | chatRelay (text : String) (senderId : Int) (senderName : String) (timestamp : Option Int)
  | muteState (senderId : Int) (isMuted : Bool)
  | peerList (peers : List Int)
  | welcome (clientId : Int) (totalClients : Nat) (peersInRoom : Nat) (roomId : String)
  | roomRedirect (originalRoom : String) (assignedRoom : String)
  | peerConnected (clientId : Int) (peerName : Option String) (totalClients : Nat)
      (peersInRoom : Nat)
  | peerDisconnected (clientId : Int) (totalClients : Nat) (peersInRoom : Nat)
deriving Repr, DecidableEq

/-- Routing of an `offer`/`answer`/`ice-candidate` message in the Active
state (lines 296-320): by Python truthiness a present-and-zero `targetId`
falls into the broadcast branch.  Returns the deliveries and the updated
manager; `none` when `int(targetId)` raises. -/
def routeActiveSignaling (st : ConnectionManager) (client_id : Int) (room_id : String)
    (data : MsgData) : Option (List (Int × OutMsg) × ConnectionManager) :=
  match data.targetId with
  | some tv =>
    match pyInt tv with
    | none => none
    | some target_id =>
      if target_id != 0 then
        if lookupA st.client_rooms target_id == some room_id then
          if target_id ∈ st.active_connections then
            some (st.send_personal_message (OutMsg.forwarded data client_id) target_id, st)
          else some ([], st)
        else some ([], st)
      else
        some (st.broadcast (OutMsg.forwarded data client_id) (some client_id) (some room_id) [])
  | none =>
    some (st.broadcast (OutMsg.forwarded data client_id) (some client_id) (some room_id) [])

/-- Routing of the first (join) message when its type is a negotiation
message (lines 267-281): only the unicast branch exists here, and the
present-`targetId` test is `is not None` (no truthiness).  `none` when
`int(targetId)` raises. -/
def routeFirstSignaling (st : ConnectionManager) (client_id : Int) (room_id : String)
    (first_data : MsgData) : Option (List (Int × OutMsg)) :=
  let message_type := first_data.mtype.getD "unknown"
  if message_type == "offer" || message_type == "answer" ||
      message_type == "ice-candidate" then
    match first_data.targetId with
    | some tv =>
      match pyInt tv with
      | none => none
      | some target_id =>
        if lookupA st.client_rooms target_id == some room_id then
          if target_id ∈ st.active_connections then
            some (st.send_personal_message (OutMsg.forwarded first_data client_id) target_id)
          else some []
        else some []
    | none => some []
  else some []

/-- Result of handling one frame in the Active state: either the loop
continues, or an exception was raised (transport-fatal); in both cases with
the sends already made and the manager state reached. -/
inductive StepResult where
  | next (st : ConnectionManager) (sends : List (Int × OutMsg))
  | raised (st : ConnectionManager) (sends : List (Int × OutMsg))
deriving Repr, DecidableEq

/-- Manager state carried by a `StepResult`. -/
def StepResult.state : StepResult → ConnectionManager
  | .next st _ => st
  | .raised st _ => st

/-- Sends carried by a `StepResult`. -/
def StepResult.sends : StepResult → List (Int × OutMsg)
  | .next _ s => s
  | .raised _ s => s

/-- Whether the step raised (left the Active loop). -/
def StepResult.isRaised : StepResult → Bool
  | .next _ _ => false
  | .raised _ _ => true

/-- One iteration of the Active-state message loop (lines 284-366) for the
session variables `client_id` and `room_id`.  The display-name update of
lines 290-291 precedes every dispatch; broadcast send failures are modelled
in `ConnectionManager.broadcast` itself and taken empty here. -/
def activeStep (st : ConnectionManager) (client_id : Int) (room_id : String) :
    Frame → StepResult
  | .malformed => .raised st []
  | .obj data =>
    let message_type := data.mtype.getD "unknown"
    let st1 :=
      if data.peerName.isSome && client_id != 0 then
        { st with client_names := insertA st.client_names client_id (data.peerName.getD "") }
      else st
    if message_type == "offer" || message_type == "answer" ||
        message_type == "ice-candidate" then
      match routeActiveSignaling st1 client_id room_id data with
      | none => .raised st1 []
      | some (sends, st2) => .next st2 sends
    else if message_type == "chat" then
      let message := OutMsg.chatRelay (data.text.getD "") client_id
        (data.senderName.getD ("Client " ++ toString client_id)) data.timestamp
      let r := st1.broadcast message (some client_id) (some room_id) []
      .next r.2 r.1
    else if message_type == "mute-state" then
      let message := OutMsg.muteState client_id (data.isMuted.getD false)
      let r := st1.broadcast message (some client_id) (some room_id) []
      .next r.2 r.1
    else if message_type == "screen-share-stopped" then
      match data.targetId with
      | some tv =>
        match pyInt tv with
        | none => .raised st1 []
        | some target_id =>
          if lookupA st1.client_rooms target_id == some room_id then
            if target_id ∈ st1.active_connections then
              .next st1 (st1.send_personal_message (OutMsg.forwarded data client_id) target_id)
            else .next st1 []
          else .next st1 []
      | none => .next st1 []
    else if message_type == "get-peers" then
      let peer_list := (st1.get_peers_in_room room_id).filter (fun cid => cid != client_id)
      .next st1 [(client_id, OutMsg.peerList peer_list)]
    else
      .next st1 []

/-- Cleanup on transport disconnect or unrecoverable error for a client that
had completed the join handshake (lines 368-392): remove the client, then
send `peer-disconnected` with the updated counts to its former room. -/
def handleClose (st : ConnectionManager) (client_id : Int) (room_id : String) :
    ConnectionManager × List (Int × OutMsg) :=
  let st1 := st.disconnect client_id
  let peers_in_room := st1.get_peers_in_room room_id
  let r := st1.broadcast
    (OutMsg.peerDisconnected client_id st1.active_connections.length peers_in_room.length)
    (some client_id) (some room_id) []
  (r.2, r.1)

/-- Run the Active-state loop over a list of inbound frames, applying the
Closed cleanup at the first raised exception.  The boolean reports whether
the session closed. -/
def runFrames (st : ConnectionManager) (client_id : Int) (room_id : String) :
    List Frame → ConnectionManager × List (Int × OutMsg) × Bool
  | [] => (st, [], false)
  | f :: fs =>
    match activeStep st client_id room_id f with
    | .next st1 sends =>
      let r := runFrames st1 client_id room_id fs
      (r.1, sends ++ r.2.1, r.2.2)
    | .raised st1 sends =>
      let c := handleClose st1 client_id room_id
      (c.1, sends ++ c.2, true)

/-- Registry effect of the join handshake (lines 220-233): resolve the
requested room (`"default"` when absent or empty), pick the room, allocate
the next client id and register it.  When the room probe diverges (capacity
0) the handler never returns and the registry is left unchanged. -/
def joinClient (st : ConnectionManager) (first_data : MsgData) (client_ip : String) :
    ConnectionManager :=
  let peer_name := pyOrStr first_data.peerName first_data.name
  let requested_room := pyOrDefault first_data.roomId "default"
  match st.find_available_room requested_room with
  | none => st
  | some rr =>
    let st1 := { st with client_counter := st.client_counter + 1 }
    st1.register_client st1.client_counter rr.1 client_ip peer_name

/-- A join request as it reaches the server: the first message and the peer
address. -/
structure JoinReq where
  first_data : MsgData
  client_ip : String
deriving Repr, DecidableEq

/-- Registry state after a sequence of join handshakes. -/
def applyJoins (st : ConnectionManager) (reqs : List JoinReq) : ConnectionManager :=
  reqs.foldl (fun s r => joinClient s r.first_data r.client_ip) st

/-- Occupancy of a room: how many clients currently sit in exactly it. -/
def occupancy (st : ConnectionManager) (room_id : String) : Nat :=
  (st.get_peers_in_room room_id).length

/-! Basic lemmas about the dict model. -/

theorem lookupA_insertA_self {α : Type} (l : List (Int × α)) (k : Int) (v : α) :
    lookupA (insertA l k v) k = some v := by
  unfold insertA
  by_cases h : (l.find? (fun p => p.1 == k)).isSome
  · simp only [h, if_true]
    induction l with
    | nil => simp [List.find?] at h
    | cons p l ih =>
      by_cases hp : p.1 == k
      · simp [lookupA, List.find?, hp]
      · simp only [List.find?, hp] at h
        simp only [List.map, hp, if_false]
        simpa [lookupA, List.find?, hp] using ih h
  · simp only [h, if_false]
    induction l with
    | nil => simp [lookupA, List.find?]
    | cons p l ih =>
      by_cases hp : p.1 == k
      · simp [List.find?, hp] at h
      · simp only [List.find?, hp] at h
        simp only [List.cons_append]
        simpa [lookupA, List.find?, hp] using ih h

theorem lookupA_eraseA {α : Type} (l : List (Int × α)) (k : Int) :
    lookupA (eraseA l k) k = none := by
  induction l with
  | nil => simp [lookupA, eraseA]
  | cons p l ih =>
    by_cases hp : p.1 == k
    · have he : eraseA (p :: l) k = eraseA l k := by
        simp [eraseA, List.filter_cons, bne, hp]
      rw [he]; exact ih
    · have he : eraseA (p :: l) k = p :: eraseA l k := by
        simp [eraseA, List.filter_cons, bne, hp]
      rw [he]
      simpa [lookupA, List.find?, hp] using ih

theorem lookupA_mem {α : Type} {l : List (Int × α)} {k : Int} {v : α}
    (h : lookupA l k = some v) : (k, v) ∈ l := by
  induction l with
  | nil => simp [lookupA, List.find?] at h
  | cons p l ih =>
    by_cases hp : p.1 == k
    · simp only [lookupA, List.find?, hp, Option.map_some'] at h
      have hpk : p.1 = k := beq_iff_eq.mp hp
      have hpv : p.2 = v := Option.some.inj h
      have : p = (k, v) := by
        cases p
        simp only at hpk hpv
        simp [hpk, hpv]
      simp [this]
    · simp only [lookupA, List.find?, hp] at h
      exact List.mem_cons_of_mem _ (ih h)

theorem mem_lookupA {α : Type} {l : List (Int × α)} {k : Int} {v : α}
    (hnd : (l.map Prod.fst).Nodup) (h : (k, v) ∈ l) : lookupA l k = some v := by
  induction l with
  | nil => simp at h
  | cons p l ih =>
    simp only [List.map_cons, List.nodup_cons] at hnd
    rcases List.mem_cons.mp h with h | h
    · simp [lookupA, List.find?, ← h]
    · have hk : k ∈ l.map Prod.fst := List.mem_map.mpr ⟨(k, v), h, rfl⟩
      have hp : ¬ p.1 == k := by
        intro hb
        exact hnd.1 (beq_iff_eq.mp hb ▸ hk)
      simp only [lookupA, List.find?, hp]
      exact ih hnd.2 h

theorem lookupA_isSome_iff {α : Type} {l : List (Int × α)} {k : Int} :
    (lookupA l k).isSome ↔ k ∈ l.map Prod.fst := by
  induction l with
  | nil => simp [lookupA, List.find?]
  | cons p l ih =>
    by_cases hp : p.1 == k
    · have : k = p.1 := (beq_iff_eq.mp hp).symm
      simp [lookupA, List.find?, hp, this]
    · have hstep : lookupA (p :: l) k = lookupA l k := by
        simp [lookupA, List.find?, hp]
      simp only [List.map_cons, List.mem_cons]
      rw [hstep, ih]
      constructor
      · exact Or.inr
      · rintro (h | h)
        · exact absurd (by simp [h]) hp
        · exact h

/-! Injectivity of the decimal printing used by overflow-room names. -/

/-- Decimal digits of `n`, most significant first (reference version of the
fuelled `Nat.toDigitsCore`). -/
def decDigits (n : Nat) : List Char :=
  if _h : n < 10 then [Nat.digitChar n]
  else decDigits (n / 10) ++ [Nat.digitChar (n % 10)]
decreasing_by
  exact Nat.div_lt_self (by omega) (by omega)

/-- Numeric value of a decimal digit character. -/
def digitVal (c : Char) : Nat := c.toNat - 48

/-- Decode a digit string back to the number. -/
def decodeDigits (l : List Char) : Nat :=
  l.foldl (fun a c => 10 * a + digitVal c) 0

theorem digitVal_digitChar : ∀ d, d < 10 → digitVal (Nat.digitChar d) = d := by decide

theorem decodeDigits_from (a : Nat) (l : List Char) :
    l.foldl (fun a c => 10 * a + digitVal c) a =
      a * 10 ^ l.length + decodeDigits l := by
  induction l generalizing a with
  | nil => simp [decodeDigits]
  | cons c l ih =>
    simp only [List.foldl_cons, decodeDigits, List.length_cons]
    rw [ih (10 * a + digitVal c), ih (10 * 0 + digitVal c)]
    ring

theorem decodeDigits_append_singleton (l : List Char) (c : Char) :
    decodeDigits (l ++ [c]) = 10 * decodeDigits l + digitVal c := by
  unfold decodeDigits
  rw [List.foldl_append]
  simp

theorem decodeDigits_decDigits (n : Nat) : decodeDigits (decDigits n) = n := by
  induction n using Nat.strong_induction_on with
  | _ n ih =>
    rw [decDigits]
    by_cases h : n < 10
    · simp [decodeDigits, h, digitVal_digitChar n h]
    · simp only [h, dif_neg, not_false_iff]
      rw [decodeDigits_append_singleton,
        ih (n / 10) (Nat.div_lt_self (by omega) (by omega)),
        digitVal_digitChar (n % 10) (Nat.mod_lt n (by omega))]
      omega

theorem toDigitsCore_eq_decDigits (fuel n : Nat) (acc : List Char) (hf : n + 1 ≤ fuel) :
    Nat.toDigitsCore 10 fuel n acc = decDigits n ++ acc := by
  induction n using Nat.strong_induction_on generalizing fuel acc with
  | _ n ih =>
    cases fuel with
    | zero => omega
    | succ f =>
      rw [decDigits]
      by_cases h : n < 10
      · have h0 : n / 10 = 0 := Nat.div_eq_of_lt h
        have hm : n % 10 = n := Nat.mod_eq_of_lt h
        simp [Nat.toDigitsCore, h0, hm, h]
      · have h0 : ¬ n / 10 = 0 := by omega
        have hlt : n / 10 < n := Nat.div_lt_self (by omega) (by omega)
        have hfuel : n / 10 + 1 ≤ f := by omega
        simp only [Nat.toDigitsCore, h0, if_false, h, dif_neg, not_false_iff]
        rw [ih (n / 10) hlt f (Nat.digitChar (n % 10) :: acc) hfuel]
        simp

theorem repr_eq_decDigits (n : Nat) : Nat.repr n = (decDigits n).asString := by
  unfold Nat.repr Nat.toDigits
  rw [toDigitsCore_eq_decDigits (n + 1) n [] (Nat.le_refl _)]
  simp

theorem natRepr_injective : Function.Injective Nat.repr := by
  intro m n h
  rw [repr_eq_decDigits, repr_eq_decDigits] at h
  have hd : decDigits m = decDigits n := congrArg String.data h
  have := congrArg decodeDigits hd
  rwa [decodeDigits_decDigits, decodeDigits_decDigits] at this

theorem overflowName_inj (req : String) {i j : Nat}
    (h : overflowName req i = overflowName req j) : i = j := by
  unfold overflowName at h
  have hdata := congrArg String.data h
  simp only [String.data_append, List.append_assoc] at hdata
  have h1 : (Nat.repr i).data = (Nat.repr j).data :=
    List.append_cancel_left (List.append_cancel_left hdata)
  exact natRepr_injective (String.ext h1)

/-! Room occupancy and the overflow probe. -/

theorem occupancy_pos_iff (st : ConnectionManager) (r : String) :
    0 < occupancy st r ↔ ∃ p ∈ st.client_rooms, p.2 = r := by
  unfold occupancy ConnectionManager.get_peers_in_room
  rw [List.length_map, ← List.countP_eq_length_filter, List.countP_pos_iff]
  constructor
  · rintro ⟨p, hp, hpr⟩
    exact ⟨p, hp, by simpa using hpr⟩
  · rintro ⟨p, hp, hpr⟩
    exact ⟨p, hp, by simpa using hpr⟩

theorem exists_free_overflow (st : ConnectionManager) (req : String) :
    ∃ n, 1 ≤ n ∧ n ≤ st.client_rooms.length + 1 ∧
      occupancy st (overflowName req n) = 0 := by
  by_contra hc
  push_neg at hc
  have hmem : ∀ j ∈ Finset.range (st.client_rooms.length + 1),
      overflowName req (j + 1) ∈ st.client_rooms.map Prod.snd := by
    intro j hj
    have h2 : j + 1 ≤ st.client_rooms.length + 1 := by
      have := Finset.mem_range.mp hj
      omega
    have hpos : 0 < occupancy st (overflowName req (j + 1)) :=
      Nat.pos_of_ne_zero (hc (j + 1) (by omega) h2)
    obtain ⟨p, hp, hpr⟩ := (occupancy_pos_iff st _).mp hpos
    exact List.mem_map.mpr ⟨p, hp, hpr⟩
  have hsub : (Finset.range (st.client_rooms.length + 1)).image
      (fun j => overflowName req (j + 1)) ⊆ (st.client_rooms.map Prod.snd).toFinset := by
    intro s hs
    obtain ⟨j, hj, rfl⟩ := Finset.mem_image.mp hs
    exact List.mem_toFinset.mpr (hmem j hj)
  have hinj : Function.Injective (fun j : Nat => overflowName req (j + 1)) := by
    intro a b hab
    have := overflowName_inj req hab
    omega
  have hcard1 : ((Finset.range (st.client_rooms.length + 1)).image
      (fun j => overflowName req (j + 1))).card = st.client_rooms.length + 1 := by
    rw [Finset.card_image_of_injective _ hinj, Finset.card_range]
  have hcard2 := Finset.card_le_card hsub
  have hcard3 : (st.client_rooms.map Prod.snd).toFinset.card ≤ st.client_rooms.length := by
    have := (st.client_rooms.map Prod.snd).toFinset_card_le
    simpa using this
  omega

theorem findOverflow_eq_some {st : ConnectionManager} {req : String} :
    ∀ {fuel idx : Nat} {r : String} {b : Bool},
    st.findOverflow req idx fuel = some (r, b) →
    b = true ∧ ∃ n, idx ≤ n ∧ r = overflowName req n ∧
      occupancy st r < st.max_peers_per_room ∧
      ∀ m, idx ≤ m → m < n → ¬ occupancy st (overflowName req m) < st.max_peers_per_room := by
  intro fuel
  induction fuel with
  | zero => intro idx r b h; simp [ConnectionManager.findOverflow] at h
  | succ f ih =>
    intro idx r b h
    rw [ConnectionManager.findOverflow] at h
    by_cases hocc :
        (st.get_peers_in_room (overflowName req idx)).length < st.max_peers_per_room
    · simp only [hocc, if_true, Option.some.injEq, Prod.mk.injEq] at h
      refine ⟨h.2.symm, idx, Nat.le_refl _, h.1.symm, ?_, ?_⟩
      · rw [← h.1]; exact hocc
      · intro m hm1 hm2; omega
    · simp only [hocc, if_false] at h
      obtain ⟨hb, n, hn1, hn2, hn3, hn4⟩ := ih h
      refine ⟨hb, n, by omega, hn2, hn3, ?_⟩
      intro m hm1 hm2
      by_cases hmi : m = idx
      · subst hmi; exact hocc
      · exact hn4 m (by omega) hm2

theorem findOverflow_isSome {st : ConnectionManager} {req : String} :
    ∀ {fuel idx j : Nat}, idx ≤ j → j < idx + fuel →
    occupancy st (overflowName req j) < st.max_peers_per_room →
    (st.findOverflow req idx fuel).isSome := by
  intro fuel
  induction fuel with
  | zero => intro idx j h1 h2 _; omega
  | succ f ih =>
    intro idx j h1 h2 h3
    rw [ConnectionManager.findOverflow]
    by_cases hocc :
        (st.get_peers_in_room (overflowName req idx)).length < st.max_peers_per_room
    · simp [hocc]
    · simp only [hocc, if_false]
      have hij : idx ≠ j := by
        intro he
        exact hocc (he ▸ h3)
      exact ih (by omega) (by omega) h3

theorem find_available_room_of_free {st : ConnectionManager} {req : String}
    (h : occupancy st req < st.max_peers_per_room) :
    st.find_available_room req = some (req, false) := by
  unfold ConnectionManager.find_available_room
  have h2 : (st.get_peers_in_room req).length < st.max_peers_per_room := h
  rw [if_pos h2]

theorem find_available_room_isSome {st : ConnectionManager} {req : String}
    (hC : 1 ≤ st.max_peers_per_room) : (st.find_available_room req).isSome := by
  unfold ConnectionManager.find_available_room
  by_cases h : (st.get_peers_in_room req).length < st.max_peers_per_room
  · simp [h]
  · rw [if_neg h]
    obtain ⟨n, h1, h2, h0⟩ := exists_free_overflow st req
    exact findOverflow_isSome h1 (by omega) (by omega)

theorem find_available_room_of_full {st : ConnectionManager} {req : String}
    (h : ¬ occupancy st req < st.max_peers_per_room) (hC : 1 ≤ st.max_peers_per_room) :
    ∃ n, 1 ≤ n ∧ st.find_available_room req = some (overflowName req n, true) ∧
      occupancy st (overflowName req n) < st.max_peers_per_room ∧
      ∀ m, 1 ≤ m → m < n →
        ¬ occupancy st (overflowName req m) < st.max_peers_per_room := by
  have hs := @find_available_room_isSome st req hC
  obtain ⟨⟨r, b⟩, hr⟩ := Option.isSome_iff_exists.mp hs
  have h2 : ¬ (st.get_peers_in_room req).length < st.max_peers_per_room := h
  unfold ConnectionManager.find_available_room at hr
  rw [if_neg h2] at hr
  obtain ⟨hb, n, hn1, hn2, hn3, hn4⟩ := findOverflow_eq_some hr
  subst hb
  refine ⟨n, hn1, ?_, hn2 ▸ hn3, fun m hm1 hm2 => hn4 m hm1 hm2⟩
  rw [show st.find_available_room req = some (r, true) from by
    unfold ConnectionManager.find_available_room
    rw [if_neg h2]; exact hr, hn2]

theorem find_available_room_false_iff {st : ConnectionManager} {req r : String}
    (h : st.find_available_room req = some (r, false)) :
    r = req ∧ occupancy st req < st.max_peers_per_room := by
  unfold ConnectionManager.find_available_room at h
  by_cases hocc : (st.get_peers_in_room req).length < st.max_peers_per_room
  · rw [if_pos hocc] at h
    simp only [Option.some.injEq, Prod.mk.injEq] at h
    exact ⟨h.1.symm, hocc⟩
  · rw [if_neg hocc] at h
    exact absurd (findOverflow_eq_some h).1 (by simp)

theorem find_available_room_occ_lt {st : ConnectionManager} {req r : String} {b : Bool}
    (h : st.find_available_room req = some (r, b)) :
    occupancy st r < st.max_peers_per_room := by
  unfold ConnectionManager.find_available_room at h
  by_cases hocc : (st.get_peers_in_room req).length < st.max_peers_per_room
  · rw [if_pos hocc] at h
    simp only [Option.some.injEq, Prod.mk.injEq] at h
    rw [← h.1]
    exact hocc
  · rw [if_neg hocc] at h
    obtain ⟨_, n, _, hn2, hn3, _⟩ := findOverflow_eq_some h
    exact hn3

/-! Claim C2 and claim C10: the room allocator. -/

/-- C2: `find_available_room` returns the requested room unchanged with
`was_redirected = false` exactly when its occupancy is strictly below
capacity; otherwise (capacity being positive) it returns the overflow room
with the smallest index `n ≥ 1` whose occupancy is below capacity, every
smaller overflow index being at capacity. -/
theorem find_available_room_spec (st : ConnectionManager) (req : String) :
    (occupancy st req < st.max_peers_per_room →
      st.find_available_room req = some (req, false)) ∧
    (∀ r, st.find_available_room req = some (r, false) →
      r = req ∧ occupancy st req < st.max_peers_per_room) ∧
    (¬ occupancy st req < st.max_peers_per_room → 1 ≤ st.max_peers_per_room →
      ∃ n, 1 ≤ n ∧ st.find_available_room req = some (overflowName req n, true) ∧
        occupancy st (overflowName req n) < st.max_peers_per_room ∧
        ∀ m, 1 ≤ m → m < n →
          ¬ occupancy st (overflowName req m) < st.max_peers_per_room) := by
  refine ⟨fun h => find_available_room_of_free h,
    fun r h => find_available_room_false_iff h,
    fun h hC => find_available_room_of_full h hC⟩

/-- Witness for `find_available_room_spec`: with capacity 1, a client in
`"lobby"` and one in `"lobby_1"`, a request for `"lobby"` is redirected to
`"lobby_2"`, and a request for `"quiet"` is honoured unchanged. -/
theorem find_available_room_spec_witness :
    (∃ st : ConnectionManager,
      st.find_available_room "quiet" = some ("quiet", false) ∧
      ∃ n, 1 ≤ n ∧
        st.find_available_room "lobby" = some (overflowName "lobby" n, true) ∧
        occupancy st (overflowName "lobby" n) < st.max_peers_per_room ∧
        ∀ m, 1 ≤ m → m < n →
          ¬ occupancy st (overflowName "lobby" m) < st.max_peers_per_room) := by
  refine ⟨{ active_connections := [1, 2], client_names := [],
            client_rooms := [(1, "lobby"), (2, "lobby_1")], client_ips := [],
            client_counter := 2, max_peers_per_room := 1 }, ?_, ?_⟩
  · exact (find_available_room_spec _ "quiet").1 (by decide)
  · exact (find_available_room_spec _ "lobby").2.2 (by decide) (by decide)

/-- C10: whenever the configured capacity is at least 1, the unbounded probe
loop of `find_available_room` terminates for every state and every requested
room: the fuelled model returns a result. -/
theorem find_available_room_total (st : ConnectionManager) (req : String)
    (hC : 1 ≤ st.max_peers_per_room) : (st.find_available_room req).isSome :=
  find_available_room_isSome hC

/-- Witness for `find_available_room_total` at a concrete full room. -/
theorem find_available_room_total_witness :
    (ConnectionManager.find_available_room
      { active_connections := [1], client_names := [], client_rooms := [(1, "a")],
        client_ips := [], client_counter := 1, max_peers_per_room := 1 } "a").isSome := by
  exact find_available_room_total _ "a" (by decide)

/-! Claim C7: disconnect is idempotent. -/

theorem disconnect_not_mem (st : ConnectionManager) (id : Int)
    (h : id ∉ st.active_connections) : st.disconnect id = st := by
  unfold ConnectionManager.disconnect
  rw [if_neg h]

theorem not_mem_active_disconnect (st : ConnectionManager) (id : Int) :
    id ∉ (st.disconnect id).active_connections := by
  unfold ConnectionManager.disconnect
  by_cases h : id ∈ st.active_connections
  · rw [if_pos h]
    simp [List.mem_filter]
  · rw [if_neg h]
    exact h

/-- C7: disconnecting an absent id changes nothing, and a second disconnect
of the same id is a no-op, for every registry state. -/
theorem disconnect_idempotent (st : ConnectionManager) (id : Int) :
    (id ∉ st.active_connections → st.disconnect id = st) ∧
    (st.disconnect id).disconnect id = st.disconnect id :=
  ⟨disconnect_not_mem st id,
   disconnect_not_mem (st.disconnect id) id (not_mem_active_disconnect st id)⟩

/-- Witness for `disconnect_idempotent` at a concrete state. -/
theorem disconnect_idempotent_witness :
    (ConnectionManager.disconnect
      { active_connections := [1], client_names := [(1, "A")],
        client_rooms := [(1, "r")], client_ips := [(1, "ip")],
        client_counter := 1, max_peers_per_room := 32 } 7 =
      { active_connections := [1], client_names := [(1, "A")],
        client_rooms := [(1, "r")], client_ips := [(1, "ip")],
        client_counter := 1, max_peers_per_room := 32 }) := by
  exact (disconnect_idempotent _ 7).1 (by decide)

/-! Claim C4: broadcast fan-out and failure isolation. -/

theorem lookupA_eq_none_iff {α : Type} {l : List (Int × α)} {c : Int} :
    lookupA l c = none ↔ ∀ p ∈ l, ¬ p.1 = c := by
  simp [lookupA, List.find?_eq_none]

theorem lookupA_eraseA_none {α : Type} {l : List (Int × α)} {d c : Int}
    (h : lookupA l c = none) : lookupA (eraseA l d) c = none := by
  rw [lookupA_eq_none_iff] at h ⊢
  intro p hp
  exact h p (List.mem_filter.mp hp).1

/-- Being fully removed (no connection, no room record) is preserved by any
further disconnect. -/
theorem removed_disconnect_preserved {st : ConnectionManager} {c : Int} (d : Int)
    (h : c ∉ st.active_connections ∧ lookupA st.client_rooms c = none) :
    c ∉ (st.disconnect d).active_connections ∧
      lookupA (st.disconnect d).client_rooms c = none := by
  unfold ConnectionManager.disconnect
  by_cases hd : d ∈ st.active_connections
  · rw [if_pos hd]
    refine ⟨fun hc => h.1 (List.mem_filter.mp hc).1, lookupA_eraseA_none h.2⟩
  · rw [if_neg hd]
    exact h

/-- Disconnecting a live id fully removes it. -/
theorem disconnect_removes {st : ConnectionManager} {c : Int}
    (h : c ∈ st.active_connections) :
    c ∉ (st.disconnect c).active_connections ∧
      lookupA (st.disconnect c).client_rooms c = none := by
  unfold ConnectionManager.disconnect
  rw [if_pos h]
  constructor
  · simp [List.mem_filter]
  · exact lookupA_eraseA _ _

theorem foldl_disconnect_removed_preserved {c : Int} :
    ∀ (l : List Int) (st : ConnectionManager),
    c ∉ st.active_connections ∧ lookupA st.client_rooms c = none →
    c ∉ (l.foldl (fun s d => s.disconnect d) st).active_connections ∧
      lookupA (l.foldl (fun s d => s.disconnect d) st).client_rooms c = none := by
  intro l
  induction l with
  | nil => intro st h; exact h
  | cons d l ih =>
    intro st h
    exact ih _ (removed_disconnect_preserved d h)

theorem foldl_disconnect_clears {c : Int} :
    ∀ (l : List Int) (st : ConnectionManager), c ∈ l →
    (c ∈ st.active_connections ∨
      (c ∉ st.active_connections ∧ lookupA st.client_rooms c = none)) →
    c ∉ (l.foldl (fun s d => s.disconnect d) st).active_connections ∧
      lookupA (l.foldl (fun s d => s.disconnect d) st).client_rooms c = none := by
  intro l
  induction l with
  | nil => intro st h; simp at h
  | cons d l ih =>
    intro st hmem hst
    simp only [List.foldl_cons]
    by_cases hdc : d = c
    · subst hdc
      have hrem : d ∉ (st.disconnect d).active_connections ∧
          lookupA (st.disconnect d).client_rooms d = none := by
        rcases hst with h | h
        · exact disconnect_removes h
        · rw [disconnect_not_mem st d h.1]
          exact h
      exact foldl_disconnect_removed_preserved l _ hrem
    · have hcl : c ∈ l := by
        rcases List.mem_cons.mp hmem with h | h
        · exact absurd h.symm hdc
        · exact h
      refine ih _ hcl ?_
      rcases hst with h | h
      · unfold ConnectionManager.disconnect
        by_cases hd : d ∈ st.active_connections
        · rw [if_pos hd]
          left
          exact List.mem_filter.mpr ⟨h, by simp [bne]; exact fun he => hdc he.symm⟩
        · rw [if_neg hd]; left; exact h
      · right; exact removed_disconnect_preserved d h

theorem mem_broadcastRecipients {st : ConnectionManager} {sender c : Int}
    {room : String} :
    c ∈ st.broadcastRecipients (some sender) (some room) ↔
      c ∈ st.active_connections ∧ c ≠ sender ∧
        lookupA st.client_rooms c = some room := by
  unfold ConnectionManager.broadcastRecipients
  simp [List.mem_filter, bne, and_assoc]

theorem mem_broadcast_delivered {st : ConnectionManager} {msg m : OutMsg}
    {sender c : Int} {room : String} {failed : List Int} :
    (c, m) ∈ (st.broadcast msg (some sender) (some room) failed).1 ↔
      m = msg ∧ c ∈ st.active_connections ∧ c ≠ sender ∧
        lookupA st.client_rooms c = some room ∧ c ∉ failed := by
  unfold ConnectionManager.broadcast
  simp only [List.mem_map, List.mem_filter]
  constructor
  · rintro ⟨a, ⟨⟨har, haf⟩, hae⟩⟩
    have hac : a = c := congrArg Prod.fst hae
    subst hac
    have hmm : msg = m := congrArg Prod.snd hae
    obtain ⟨h1, h2, h3⟩ := mem_broadcastRecipients.mp har
    refine ⟨hmm.symm, h1, h2, h3, ?_⟩
    simpa using haf
  · rintro ⟨rfl, h1, h2, h3, h4⟩
    refine ⟨c, ⟨⟨mem_broadcastRecipients.mpr ⟨h1, h2, h3⟩, by simpa using h4⟩, rfl⟩⟩

/-- C4: a room-filtered broadcast excluding the sender delivers the message
to exactly the registered clients of that exact room other than the sender
and outside the failure set; every member of a different room is excluded; a
send failure to one recipient neither blocks the others nor the sends made,
and the failed recipient is cleaned up as a disconnect. -/
theorem broadcast_spec (st : ConnectionManager) (msg : OutMsg) (sender : Int)
    (room : String) (failed : List Int) :
    (∀ c m, (c, m) ∈ (st.broadcast msg (some sender) (some room) failed).1 ↔
      m = msg ∧ c ∈ st.active_connections ∧ c ≠ sender ∧
        lookupA st.client_rooms c = some room ∧ c ∉ failed) ∧
    (∀ c r', lookupA st.client_rooms c = some r' → r' ≠ room →
      ∀ m, (c, m) ∉ (st.broadcast msg (some sender) (some room) failed).1) ∧
    (∀ c, c ∈ st.active_connections → c ≠ sender →
      lookupA st.client_rooms c = some room → c ∈ failed →
      c ∉ (st.broadcast msg (some sender) (some room) failed).2.active_connections ∧
        lookupA (st.broadcast msg (some sender) (some room) failed).2.client_rooms c
          = none) := by
  refine ⟨fun c m => mem_broadcast_delivered, ?_, ?_⟩
  · intro c r' hr' hne m hmem
    obtain ⟨_, _, _, hlk, _⟩ := mem_broadcast_delivered.mp hmem
    rw [hr'] at hlk
    exact hne (Option.some.inj hlk)
  · intro c hc hcs hck hcf
    have hrec : c ∈ (st.broadcastRecipients (some sender) (some room)).filter
        (fun c => failed.contains c) := by
      refine List.mem_filter.mpr ⟨mem_broadcastRecipients.mpr ⟨hc, hcs, hck⟩, ?_⟩
      simpa using hcf
    unfold ConnectionManager.broadcast
    exact foldl_disconnect_clears _ st hrec (Or.inl hc)

/-- Witness for `broadcast_spec`: clients 1,2,3 in room `"r"`, client 4 in
`"r_1"`; sender 1 broadcasts with the send to 3 failing: 2 receives, 3 and 4
do not, and 3 is cleaned up. -/
theorem broadcast_spec_witness :
    ((2, OutMsg.muteState 1 true) ∈
      (ConnectionManager.broadcast
        { active_connections := [1, 2, 3, 4], client_names := [],
          client_rooms := [(1, "r"), (2, "r"), (3, "r"), (4, "r_1")],
          client_ips := [], client_counter := 4, max_peers_per_room := 32 }
        (OutMsg.muteState 1 true) (some 1) (some "r") [3]).1) ∧
    (∀ m, (4, m) ∉
      (ConnectionManager.broadcast
        { active_connections := [1, 2, 3, 4], client_names := [],
          client_rooms := [(1, "r"), (2, "r"), (3, "r"), (4, "r_1")],
          client_ips := [], client_counter := 4, max_peers_per_room := 32 }
        (OutMsg.muteState 1 true) (some 1) (some "r") [3]).1) ∧
    (3 : Int) ∉
      (ConnectionManager.broadcast
        { active_connections := [1, 2, 3, 4], client_names := [],
          client_rooms := [(1, "r"), (2, "r"), (3, "r"), (4, "r_1")],
          client_ips := [], client_counter := 4, max_peers_per_room := 32 }
        (OutMsg.muteState 1 true) (some 1) (some "r") [3]).2.active_connections := by
  refine ⟨((broadcast_spec _ (OutMsg.muteState 1 true) 1 "r" [3]).1 2 _).mpr
      ⟨rfl, by decide, by decide, by decide, by decide⟩,
    fun m => (broadcast_spec _ (OutMsg.muteState 1 true) 1 "r" [3]).2.1 4 "r_1"
      (by decide) (by decide) m,
    ((broadcast_spec _ (OutMsg.muteState 1 true) 1 "r" [3]).2.2 3
      (by decide) (by decide) (by decide) (by decide)).1⟩

/-! Claim C3: unicast routing of negotiation messages in the Active state. -/

theorem broadcast_no_failures {α : Type} (st : ConnectionManager) (msg : α)
    (ex : Option Int) (room : Option String) :
    st.broadcast msg ex room [] =
      ((st.broadcastRecipients ex room).map (fun c => (c, msg)), st) := by
  unfold ConnectionManager.broadcast
  simp

/-- Amended C3: in the Active state a negotiation message with a nonzero
`targetId` T is delivered to T, with `senderId` injected, exactly when T is
registered in the sender's exact room, and in that case T alone receives it;
but a `targetId` of 0 is falsy in Python, so the message is instead
multicast to the sender's room. -/
theorem routeActiveSignaling_target_spec (st : ConnectionManager) (cid : Int)
    (room : String) (data : MsgData) (T : Int)
    (h : data.targetId = some (TargetVal.val T)) :
    (T ≠ 0 → routeActiveSignaling st cid room data =
      some ((if lookupA st.client_rooms T = some room ∧ T ∈ st.active_connections
             then [(T, OutMsg.forwarded data cid)] else []), st)) ∧
    (T = 0 → routeActiveSignaling st cid room data =
      some ((st.broadcastRecipients (some cid) (some room)).map
        (fun c => (c, OutMsg.forwarded data cid)), st)) := by
  constructor
  · intro h0
    unfold routeActiveSignaling
    rw [h]
    simp only [pyInt]
    have hb : (T != 0) = true := by simpa using h0
    rw [if_pos hb]
    by_cases hr : lookupA st.client_rooms T = some room
    · have hrb : (lookupA st.client_rooms T == some room) = true := by simpa using hr
      rw [if_pos hrb]
      by_cases hm : T ∈ st.active_connections
      · rw [if_pos hm, if_pos ⟨hr, hm⟩]
        unfold ConnectionManager.send_personal_message
        rw [if_pos hm]
      · rw [if_neg hm, if_neg (fun hc => hm hc.2)]
    · have hrb : ¬ (lookupA st.client_rooms T == some room) = true := by simpa using hr
      rw [if_neg hrb, if_neg (fun hc => hr hc.1)]
  · intro h0
    subst h0
    unfold routeActiveSignaling
    rw [h]
    simp only [pyInt]
    have hb : ((0 : Int) != 0) = false := by decide
    rw [hb]
    simp only [Bool.false_eq_true, if_false]
    rw [broadcast_no_failures]

/-- Counterexample to C3 as stated: a message carrying `targetId` 0 — an id
that is never registered — is not dropped: it is broadcast, and peer 2
receives it. -/
theorem routeActiveSignaling_zero_target_counterexample :
    ((0 : Int) ∉
      (ConnectionManager.mk [1, 2] [] [(1, "r"), (2, "r")] [] 2 32).active_connections) ∧
    routeActiveSignaling (ConnectionManager.mk [1, 2] [] [(1, "r"), (2, "r")] [] 2 32)
        1 "r"
        { MsgData.empty with mtype := some "offer", targetId := some (TargetVal.val 0) } =
      some ([(2, OutMsg.forwarded
        { MsgData.empty with mtype := some "offer", targetId := some (TargetVal.val 0) }
        1)],
        ConnectionManager.mk [1, 2] [] [(1, "r"), (2, "r")] [] 2 32) := by
  exact ⟨by decide, by decide⟩

/-- Witness for `routeActiveSignaling_target_spec`: target 2 in the same
room receives; target 3 in another room receives nothing. -/
theorem routeActiveSignaling_target_spec_witness :
    (routeActiveSignaling (ConnectionManager.mk [1, 2, 3] [] [(1, "r"), (2, "r"), (3, "s")] [] 3 32)
        1 "r" { MsgData.empty with mtype := some "offer", targetId := some (TargetVal.val 2) } =
      some ([(2, OutMsg.forwarded
        { MsgData.empty with mtype := some "offer", targetId := some (TargetVal.val 2) } 1)],
        ConnectionManager.mk [1, 2, 3] [] [(1, "r"), (2, "r"), (3, "s")] [] 3 32)) ∧
    (routeActiveSignaling (ConnectionManager.mk [1, 2, 3] [] [(1, "r"), (2, "r"), (3, "s")] [] 3 32)
        1 "r" { MsgData.empty with mtype := some "offer", targetId := some (TargetVal.val 3) } =
      some ([],
        ConnectionManager.mk [1, 2, 3] [] [(1, "r"), (2, "r"), (3, "s")] [] 3 32)) := by
  constructor
  · rw [(routeActiveSignaling_target_spec _ 1 "r" _ 2 rfl).1 (by decide)]
    rw [if_pos (by exact ⟨by decide, by decide⟩)]
  · rw [(routeActiveSignaling_target_spec _ 1 "r" _ 3 rfl).1 (by decide)]
    rw [if_neg (by intro hc; exact absurd hc.1 (by decide))]

/-! Claim C5: routing of the first (join) message. -/

/-- Amended C5: a first message of negotiation type is routed only as a
unicast: with `targetId` present and resolving to a registered client of the
joiner's room it is forwarded there with `senderId` injected; in every other
case — in particular with `targetId` absent — it is not forwarded to anyone
(no multicast happens at join time), and a non-coercible `targetId` raises. -/
theorem routeFirstSignaling_spec (st : ConnectionManager) (cid : Int) (room : String)
    (fd : MsgData)
    (hneg : fd.mtype.getD "unknown" = "offer" ∨ fd.mtype.getD "unknown" = "answer" ∨
      fd.mtype.getD "unknown" = "ice-candidate") :
    (fd.targetId = none → routeFirstSignaling st cid room fd = some []) ∧
    (∀ T, fd.targetId = some (TargetVal.val T) →
      routeFirstSignaling st cid room fd =
        some (if lookupA st.client_rooms T = some room ∧ T ∈ st.active_connections
              then [(T, OutMsg.forwarded fd cid)] else [])) ∧
    (fd.targetId = some TargetVal.notAnInt → routeFirstSignaling st cid room fd = none) := by
  have hcond : (fd.mtype.getD "unknown" == "offer" ||
      fd.mtype.getD "unknown" == "answer" ||
      fd.mtype.getD "unknown" == "ice-candidate") = true := by
    rcases hneg with h | h | h <;> simp [h]
  refine ⟨?_, ?_, ?_⟩
  · intro h
    unfold routeFirstSignaling
    simp [hcond, h]
  · intro T h
    unfold routeFirstSignaling
    simp only [hcond, h, pyInt, if_true]
    by_cases hr : lookupA st.client_rooms T = some room
    · by_cases hm : T ∈ st.active_connections
      · simp [hr, hm, ConnectionManager.send_personal_message]
      · simp [hr, hm]
    · simp [hr]
  · intro h
    unfold routeFirstSignaling
    simp [hcond, h, pyInt]

/-- Counterexample to C5 as stated: for a first message of type `offer` with
no `targetId`, the join-time routing forwards to nobody, while the Active
router would multicast it to the other room member. -/
theorem routeFirstSignaling_counterexample :
    routeFirstSignaling (ConnectionManager.mk [1, 2] [] [(1, "r"), (2, "r")] [] 2 32)
        2 "r" { MsgData.empty with mtype := some "offer" } = some [] ∧
    routeActiveSignaling (ConnectionManager.mk [1, 2] [] [(1, "r"), (2, "r")] [] 2 32)
        2 "r" { MsgData.empty with mtype := some "offer" } =
      some ([(1, OutMsg.forwarded { MsgData.empty with mtype := some "offer" } 2)],
        ConnectionManager.mk [1, 2] [] [(1, "r"), (2, "r")] [] 2 32) := by
  exact ⟨by decide, by decide⟩

/-- Witness for `routeFirstSignaling_spec`. -/
theorem routeFirstSignaling_spec_witness :
    routeFirstSignaling (ConnectionManager.mk [1, 2] [] [(1, "r"), (2, "r")] [] 2 32) 2 "r" { MsgData.empty with mtype := some "ice-candidate", targetId := some (TargetVal.val 1) } = some [(1, OutMsg.forwarded { MsgData.empty with mtype := some "ice-candidate", targetId := some (TargetVal.val 1) } 2)] := by
  rw [(routeFirstSignaling_spec _ 2 "r" _ (by decide)).2.1 1 rfl]
  rw [if_pos (by exact ⟨by decide, by decide⟩)]

/-! Claim C8: the display-name update in the Active loop. -/

theorem routeActiveSignaling_state_eq {st : ConnectionManager} {cid : Int}
    {room : String} {data : MsgData} {r : List (Int × OutMsg) × ConnectionManager}
    (h : routeActiveSignaling st cid room data = some r) : r.2 = st := by
  unfold routeActiveSignaling at h
  rcases hta : data.targetId with _ | tv
  · rw [hta, broadcast_no_failures] at h
    exact congrArg Prod.snd (Option.some.inj h).symm
  · rw [hta] at h
    rcases tv with T | _
    · simp only [pyInt] at h
      by_cases h0 : (T != 0) = true
      · rw [if_pos h0] at h
        by_cases hr : (lookupA st.client_rooms T == some room) = true
        · rw [if_pos hr] at h
          by_cases hm : T ∈ st.active_connections
          · rw [if_pos hm] at h
            exact congrArg Prod.snd (Option.some.inj h).symm
          · rw [if_neg hm] at h
            exact congrArg Prod.snd (Option.some.inj h).symm
        · rw [if_neg hr] at h
          exact congrArg Prod.snd (Option.some.inj h).symm
      · rw [if_neg h0, broadcast_no_failures] at h
        exact congrArg Prod.snd (Option.some.inj h).symm
    · simp only [pyInt] at h
      exact Option.noConfusion h

/-- The registry state reached by one Active-state step on a JSON object is
the input state with at most the sender's display name updated: the update
happens exactly when the payload carries `peerName`, before and regardless
of the type dispatch. -/
theorem activeStep_obj_state (st : ConnectionManager) (cid : Int) (room : String)
    (data : MsgData) :
    (activeStep st cid room (Frame.obj data)).state =
      (if data.peerName.isSome && cid != 0 then
        { st with client_names := insertA st.client_names cid (data.peerName.getD "") }
      else st) := by
  unfold activeStep
  dsimp only
  set st1 := (if data.peerName.isSome && cid != 0 then
    { st with client_names := insertA st.client_names cid (data.peerName.getD "") }
    else st) with hst1
  by_cases h1 : (data.mtype.getD "unknown" == "offer" ||
      data.mtype.getD "unknown" == "answer" ||
      data.mtype.getD "unknown" == "ice-candidate") = true
  · rw [if_pos h1]
    rcases hroute : routeActiveSignaling st1 cid room data with _ | r
    · simp [StepResult.state]
    · simp only [StepResult.state]
      exact routeActiveSignaling_state_eq hroute
  · rw [if_neg h1]
    by_cases h2 : (data.mtype.getD "unknown" == "chat") = true
    · rw [if_pos h2]
      simp only [StepResult.state]
      rw [broadcast_no_failures]
    · rw [if_neg h2]
      by_cases h3 : (data.mtype.getD "unknown" == "mute-state") = true
      · rw [if_pos h3]
        simp only [StepResult.state]
        rw [broadcast_no_failures]
      · rw [if_neg h3]
        by_cases h4 : (data.mtype.getD "unknown" == "screen-share-stopped") = true
        · rw [if_pos h4]
          rcases hta : data.targetId with _ | tv
          · simp [StepResult.state]
          · rcases tv with T | _
            · simp only [pyInt]
              by_cases hr : (lookupA st1.client_rooms T == some room) = true
              · rw [if_pos hr]
                by_cases hm : T ∈ st1.active_connections
                · rw [if_pos hm]; simp [StepResult.state]
                · rw [if_neg hm]; simp [StepResult.state]
              · rw [if_neg hr]; simp [StepResult.state]
            · simp [pyInt, StepResult.state]
        · rw [if_neg h4]
          by_cases h5 : (data.mtype.getD "unknown" == "get-peers") = true
          · rw [if_pos h5]; simp [StepResult.state]
          · rw [if_neg h5]; simp [StepResult.state]

/-- Amended C8: a message whose payload carries `peerName` (the only
display-name key the Active loop reads) overwrites the sender's stored name
before dispatch, whatever the message type; `name`/`displayName` keys do not
rename in the Active state. -/
theorem activeStep_updates_peerName (st : ConnectionManager) (cid : Int)
    (room : String) (data : MsgData) (nm : String)
    (h : data.peerName = some nm) (h0 : cid ≠ 0) :
    lookupA (activeStep st cid room (Frame.obj data)).state.client_names cid =
      some nm := by
  rw [activeStep_obj_state]
  have hb : (data.peerName.isSome && cid != 0) = true := by
    simp [h, bne, h0]
  rw [if_pos hb]
  have : data.peerName.getD "" = nm := by rw [h]; rfl
  rw [this]
  exact lookupA_insertA_self st.client_names cid nm

/-- Counterexample to C8 as stated: a chat message carrying the display name
only under the key `name` does not rename the sender — the stored name stays
`"A"`, not `"B"`. -/
theorem activeStep_name_key_counterexample :
    ({ MsgData.empty with mtype := some "chat", name := some "B" } : MsgData).name
        = some "B" ∧
    lookupA ((activeStep (ConnectionManager.mk [1] [(1, "A")] [(1, "r")] [(1, "ip")] 1 32) 1 "r" (Frame.obj { MsgData.empty with mtype := some "chat", name := some "B" })).state.client_names) 1 = some "A" := by
  exact ⟨rfl, by decide⟩

/-- Witness for `activeStep_updates_peerName`: renaming applies even on a
message of unrecognized type. -/
theorem activeStep_updates_peerName_witness :
    lookupA ((activeStep (ConnectionManager.mk [1] [(1, "A")] [(1, "r")] [(1, "ip")] 1 32) 1 "r" (Frame.obj { MsgData.empty with mtype := some "bogus", peerName := some "B" })).state.client_names) 1 = some "B" := by
  exact activeStep_updates_peerName _ 1 "r"
    { MsgData.empty with mtype := some "bogus", peerName := some "B" } "B" rfl (by decide)

/-! Claim C9: malformed and unknown inbound messages in the Active state. -/

/-- Amended C9: in the Active state a structurally valid (JSON object)
message of unknown or absent type is dropped without terminating the
session: nothing is forwarded, no exception is raised, and the loop goes on
to process the remaining frames. -/
theorem activeStep_unknown_type_spec (st : ConnectionManager) (cid : Int)
    (room : String) (data : MsgData) (fs : List Frame)
    (h : data.mtype.getD "unknown" ∉
      (["offer", "answer", "ice-candidate", "chat", "mute-state",
        "screen-share-stopped", "get-peers"] : List String)) :
    (activeStep st cid room (Frame.obj data)).isRaised = false ∧
    (activeStep st cid room (Frame.obj data)).sends = [] ∧
    runFrames st cid room (Frame.obj data :: fs) =
      runFrames (activeStep st cid room (Frame.obj data)).state cid room fs := by
  simp only [List.mem_cons, List.mem_singleton, not_or] at h
  obtain ⟨hn1, hn2, hn3, hn4, hn5, hn6, hn7, _⟩ := h
  have hb1 : (data.mtype.getD "unknown" == "offer" ||
      data.mtype.getD "unknown" == "answer" ||
      data.mtype.getD "unknown" == "ice-candidate") = false := by
    simp [hn1, hn2, hn3]
  have hb2 : (data.mtype.getD "unknown" == "chat") = false := by simp [hn4]
  have hb3 : (data.mtype.getD "unknown" == "mute-state") = false := by simp [hn5]
  have hb4 : (data.mtype.getD "unknown" == "screen-share-stopped") = false := by
    simp [hn6]
  have hb5 : (data.mtype.getD "unknown" == "get-peers") = false := by simp [hn7]
  have hx : activeStep st cid room (Frame.obj data) =
      StepResult.next (if data.peerName.isSome && cid != 0 then
        { st with client_names := insertA st.client_names cid (data.peerName.getD "") }
      else st) [] := by
    unfold activeStep
    dsimp only
    rw [hb1, hb2, hb3, hb4, hb5]
    simp
  have hst1 : (activeStep st cid room (Frame.obj data)).state =
      (if data.peerName.isSome && cid != 0 then
        { st with client_names := insertA st.client_names cid (data.peerName.getD "") }
      else st) := activeStep_obj_state st cid room data
  refine ⟨by rw [hx]; rfl, by rw [hx]; rfl, ?_⟩
  rw [hst1]
  simp only [runFrames, hx]
  rfl

/-- Counterexample to C9 as stated: a malformed frame (non-object payload)
in the Active state is transport-fatal — the session runs its Closed
cleanup and the following well-formed `get-peers` message is never
processed. -/
theorem malformed_frame_counterexample :
    (activeStep (ConnectionManager.mk [1, 2] [] [(1, "r"), (2, "r")] [] 2 32) 1 "r"
      Frame.malformed).isRaised = true ∧
    runFrames (ConnectionManager.mk [1, 2] [] [(1, "r"), (2, "r")] [] 2 32) 1 "r"
        [Frame.malformed, Frame.obj { MsgData.empty with mtype := some "get-peers" }] =
      (ConnectionManager.mk [2] [] [(2, "r")] [] 2 32,
        [(2, OutMsg.peerDisconnected 1 1 1)], true) := by
  exact ⟨rfl, by decide⟩

/-- Witness for `activeStep_unknown_type_spec`: an unrecognized type is
ignored and the next frame is still served. -/
theorem activeStep_unknown_type_spec_witness :
    (activeStep (ConnectionManager.mk [1, 2] [] [(1, "r"), (2, "r")] [] 2 32) 1 "r"
      (Frame.obj { MsgData.empty with mtype := some "bogus" })).isRaised = false ∧
    (activeStep (ConnectionManager.mk [1, 2] [] [(1, "r"), (2, "r")] [] 2 32) 1 "r"
      (Frame.obj { MsgData.empty with mtype := some "bogus" })).sends = [] ∧
    runFrames (ConnectionManager.mk [1, 2] [] [(1, "r"), (2, "r")] [] 2 32) 1 "r"
        (Frame.obj { MsgData.empty with mtype := some "bogus" } ::
          [Frame.obj { MsgData.empty with mtype := some "get-peers" }]) =
      runFrames ((activeStep (ConnectionManager.mk [1, 2] [] [(1, "r"), (2, "r")] [] 2 32)
          1 "r" (Frame.obj { MsgData.empty with mtype := some "bogus" })).state) 1 "r"
        [Frame.obj { MsgData.empty with mtype := some "get-peers" }] := by
  exact activeStep_unknown_type_spec _ 1 "r" _ _ (by decide)

/-! Claim C6 and claim C1: disconnect cleanup and the capacity invariant. -/

theorem countP_split {α : Type} (l : List α) (p q : α → Bool) :
    l.countP p = l.countP (fun a => p a && q a) + l.countP (fun a => p a && !q a) := by
  induction l with
  | nil => simp
  | cons a l ih =>
    by_cases hp : p a <;> by_cases hq : q a <;>
      simp [List.countP_cons, hp, hq, ih] <;> omega

theorem eraseA_map_fst {α : Type} (l : List (Int × α)) (d : Int) :
    (eraseA l d).map Prod.fst = (l.map Prod.fst).filter (fun k => k != d) := by
  induction l with
  | nil => rfl
  | cons p l ih =>
    by_cases hp : (p.1 != d) = true <;>
      simp [eraseA, List.filter_cons, hp] <;>
      simpa [eraseA] using ih

theorem mem_get_peers_iff {st : ConnectionManager} {room : String} {c : Int} :
    c ∈ st.get_peers_in_room room ↔ ∃ p ∈ st.client_rooms, p.1 = c ∧ p.2 = room := by
  unfold ConnectionManager.get_peers_in_room
  simp only [List.mem_map, List.mem_filter, beq_iff_eq]
  constructor
  · rintro ⟨p, ⟨hp, hpr⟩, hpc⟩
    exact ⟨p, hp, hpc, hpr⟩
  · rintro ⟨p, hp, hpc, hpr⟩
    exact ⟨p, ⟨hp, hpr⟩, hpc⟩

theorem occ_list_eraseA (l : List (Int × String)) (d : Int) (room : String)
    (hnd : (l.map Prod.fst).Nodup) (hd : lookupA l d = some room) :
    ((eraseA l d).filter (fun p => p.2 == room)).length + 1 =
      (l.filter (fun p => p.2 == room)).length := by
  rw [← List.countP_eq_length_filter, ← List.countP_eq_length_filter]
  rw [countP_split l (fun p => p.2 == room) (fun p => p.1 != d)]
  have h1 : (eraseA l d).countP (fun p => p.2 == room) =
      l.countP (fun a => (a.2 == room) && (a.1 != d)) := by
    unfold eraseA
    rw [List.countP_filter]
  have h2 : l.countP (fun a => (a.2 == room) && !(a.1 != d)) = 1 := by
    have hle : l.countP (fun a => (a.2 == room) && !(a.1 != d)) ≤
        l.countP (fun a => a.1 == d) := by
      apply List.countP_mono_left
      intro x _ hxx
      simp only [bne, Bool.not_not, Bool.and_eq_true] at hxx
      exact hxx.2
    have hkey : l.countP (fun a => a.1 == d) ≤ 1 := by
      have hcnt := List.nodup_iff_count_le_one.mp hnd d
      rw [List.count_eq_countP, List.countP_map] at hcnt
      exact hcnt
    have hge : 0 < l.countP (fun a => (a.2 == room) && !(a.1 != d)) := by
      apply List.countP_pos_iff.mpr
      exact ⟨(d, room), lookupA_mem hd, by simp⟩
    omega
  omega

/-- C6 helper: the decremented occupancy after a live client leaves. -/
theorem occupancy_disconnect (st : ConnectionManager) (d : Int) (room : String)
    (hnd : (st.client_rooms.map Prod.fst).Nodup)
    (hd : lookupA st.client_rooms d = some room)
    (hact : d ∈ st.active_connections) :
    occupancy (st.disconnect d) room + 1 = occupancy st room := by
  unfold occupancy ConnectionManager.get_peers_in_room ConnectionManager.disconnect
  rw [if_pos hact]
  simp only [List.length_map]
  exact occ_list_eraseA st.client_rooms d room hnd hd

/-- A client id that holds no room record and is not above the id counter can
never reappear in any room: the predicate the post-disconnect trace keeps. -/
def Gone (d : Int) (st : ConnectionManager) : Prop :=
  (∀ p ∈ st.client_rooms, p.1 ≠ d) ∧ d ≤ st.client_counter

theorem Gone.not_in_room {d : Int} {st : ConnectionManager} (h : Gone d st)
    (room : String) : d ∉ st.get_peers_in_room room := by
  intro hmem
  obtain ⟨p, hp, hpc, _⟩ := mem_get_peers_iff.mp hmem
  exact h.1 p hp hpc

theorem Gone.disconnect {d : Int} {st : ConnectionManager} (h : Gone d st) (c : Int) :
    Gone d (st.disconnect c) := by
  unfold ConnectionManager.disconnect
  by_cases hc : c ∈ st.active_connections
  · rw [if_pos hc]
    exact ⟨fun p hp => h.1 p (List.mem_filter.mp hp).1, h.2⟩
  · rw [if_neg hc]
    exact h

theorem Gone.foldl_disconnect {d : Int} :
    ∀ (l : List Int) (st : ConnectionManager), Gone d st →
    Gone d (l.foldl (fun s c => s.disconnect c) st) := by
  intro l
  induction l with
  | nil => intro st h; exact h
  | cons c l ih => intro st h; exact ih _ (h.disconnect c)

theorem Gone.broadcast {d : Int} {st : ConnectionManager} (h : Gone d st)
    (msg : OutMsg) (ex : Option Int) (room : Option String) (failed : List Int) :
    Gone d (st.broadcast msg ex room failed).2 := by
  unfold ConnectionManager.broadcast
  exact Gone.foldl_disconnect _ st h

theorem Gone.insertA_rooms {d k : Int} {v : String} {l : List (Int × String)}
    (h : ∀ p ∈ l, p.1 ≠ d) (hk : k ≠ d) : ∀ p ∈ insertA l k v, p.1 ≠ d := by
  intro p hp
  unfold insertA at hp
  by_cases hf : (l.find? (fun p => p.1 == k)).isSome
  · rw [if_pos hf] at hp
    obtain ⟨q, hq, hqe⟩ := List.mem_map.mp hp
    by_cases hqk : (q.1 == k) = true
    · rw [if_pos hqk] at hqe
      rw [← hqe]
      exact hk
    · rw [if_neg hqk] at hqe
      rw [← hqe]
      exact h q hq
  · rw [if_neg hf] at hp
    rcases List.mem_append.mp hp with hp | hp
    · exact h p hp
    · rw [List.mem_singleton.mp hp]
      exact hk

theorem Gone.join_pres {d : Int} {st : ConnectionManager} (h : Gone d st)
    (fd : MsgData) (ip : String) : Gone d (joinClient st fd ip) := by
  unfold joinClient
  dsimp only
  rcases hfind : st.find_available_room (pyOrDefault fd.roomId "default") with _ | rr
  · exact h
  · refine ⟨?_, ?_⟩
    · show ∀ p ∈ insertA st.client_rooms (st.client_counter + 1) rr.1, p.1 ≠ d
      refine Gone.insertA_rooms h.1 ?_
      have := h.2
      omega
    · show d ≤ st.client_counter + 1
      have := h.2
      omega

theorem Gone.step_pres {d : Int} {st : ConnectionManager} (h : Gone d st)
    (cid : Int) (room : String) (f : Frame) :
    Gone d ((activeStep st cid room f).state) := by
  rcases f with data | _
  · rw [activeStep_obj_state]
    by_cases hb : (data.peerName.isSome && cid != 0) = true
    · rw [if_pos hb]
      exact h
    · rw [if_neg hb]
      exact h
  · exact h

theorem Gone.close_pres {d : Int} {st : ConnectionManager} (h : Gone d st)
    (cid : Int) (room : String) : Gone d ((handleClose st cid room).1) := by
  unfold handleClose
  dsimp only
  exact (h.disconnect cid).broadcast _ _ _ _

/-- The server-level operations that can touch the registry after a client
is gone: another join handshake, an Active-state message, a close cleanup,
or a broadcast with send failures. -/
inductive ServerOp where
  | join (req : JoinReq)
  | close (client_id : Int) (room_id : String)
  | msg (client_id : Int) (room_id : String) (f : Frame)
  | bfail (message : OutMsg) (exclude : Option Int) (room : Option String)
      (failed : List Int)
deriving Repr, DecidableEq

/-- Effect of one server-level operation on the registry. -/
def applyOp (st : ConnectionManager) : ServerOp → ConnectionManager
  | .join r => joinClient st r.first_data r.client_ip
  | .close cid room => (handleClose st cid room).1
  | .msg cid room f => (activeStep st cid room f).state
  | .bfail m ex room failed => (st.broadcast m ex room failed).2

/-- Registry state after a sequence of server-level operations. -/
def applyOps (st : ConnectionManager) (ops : List ServerOp) : ConnectionManager :=
  ops.foldl applyOp st

theorem Gone.op_pres {d : Int} {st : ConnectionManager} (h : Gone d st)
    (op : ServerOp) : Gone d (applyOp st op) := by
  cases op with
  | join r => exact h.join_pres r.first_data r.client_ip
  | close cid room => exact h.close_pres cid room
  | msg cid room f => exact h.step_pres cid room f
  | bfail m ex room failed => exact h.broadcast m ex room failed

theorem Gone.ops_pres {d : Int} :
    ∀ (ops : List ServerOp) (st : ConnectionManager), Gone d st →
    Gone d (applyOps st ops) := by
  intro ops
  induction ops with
  | nil => intro st h; exact h
  | cons op ops ih => intro st h; exact ih _ (h.op_pres op)

theorem eraseA_keys_ne {α : Type} {l : List (Int × α)} {d : Int} :
    ∀ p ∈ eraseA l d, p.1 ≠ d := by
  intro p hp
  have := (List.mem_filter.mp hp).2
  simpa [bne] using this

theorem handleClose_state (st : ConnectionManager) (d : Int) (room : String) :
    (handleClose st d room).1 = st.disconnect d := by
  unfold handleClose
  dsimp only
  rw [broadcast_no_failures]

theorem handleClose_sends (st : ConnectionManager) (d : Int) (room : String) :
    (handleClose st d room).2 =
      ((st.disconnect d).broadcastRecipients (some d) (some room)).map
        (fun c => (c, OutMsg.peerDisconnected d
          (st.disconnect d).active_connections.length
          (occupancy (st.disconnect d) room))) := by
  unfold handleClose
  dsimp only
  rw [broadcast_no_failures]
  rfl

theorem disconnect_rooms_nodup {st : ConnectionManager} (d : Int)
    (hnd : (st.client_rooms.map Prod.fst).Nodup) :
    ((st.disconnect d).client_rooms.map Prod.fst).Nodup := by
  unfold ConnectionManager.disconnect
  by_cases hc : d ∈ st.active_connections
  · rw [if_pos hc]
    dsimp only
    rw [eraseA_map_fst]
    exact hnd.filter _
  · rw [if_neg hc]
    exact hnd

theorem disconnect_sync {st : ConnectionManager} (d : Int)
    (hwf : st.active_connections = st.client_rooms.map Prod.fst) :
    (st.disconnect d).active_connections =
      (st.disconnect d).client_rooms.map Prod.fst := by
  unfold ConnectionManager.disconnect
  by_cases hc : d ∈ st.active_connections
  · rw [if_pos hc]
    dsimp only
    rw [eraseA_map_fst, hwf]
  · rw [if_neg hc]
    exact hwf

/-- C6: when a joined client's connection closes, the cleanup removes every
record of it — it is gone from its former room, the room count drops by one —
and the `peer-disconnected` event carrying the decremented count goes to
exactly the remaining members of that room; and no later server operation
ever puts that id back into the room. -/
theorem close_cleanup_spec (st : ConnectionManager) (d : Int) (room : String)
    (hwf : st.active_connections = st.client_rooms.map Prod.fst)
    (hnd : (st.client_rooms.map Prod.fst).Nodup)
    (hcnt : ∀ p ∈ st.client_rooms, p.1 ≤ st.client_counter)
    (hd : lookupA st.client_rooms d = some room) :
    (handleClose st d room).1 = st.disconnect d ∧
    d ∉ (st.disconnect d).get_peers_in_room room ∧
    occupancy (st.disconnect d) room + 1 = occupancy st room ∧
    (∀ c, (c, OutMsg.peerDisconnected d
        (st.disconnect d).active_connections.length
        (occupancy (st.disconnect d) room)) ∈ (handleClose st d room).2 ↔
      c ∈ (st.disconnect d).get_peers_in_room room) ∧
    (∀ ops, d ∉ (applyOps (st.disconnect d) ops).get_peers_in_room room) := by
  have hact : d ∈ st.active_connections := by
    rw [hwf]
    exact lookupA_isSome_iff.mp (by rw [hd]; rfl)
  have hgone : Gone d (st.disconnect d) := by
    unfold ConnectionManager.disconnect
    rw [if_pos hact]
    exact ⟨eraseA_keys_ne, hcnt _ (lookupA_mem hd)⟩
  have hnd1 := @disconnect_rooms_nodup st d hnd
  have hwf1 := @disconnect_sync st d hwf
  refine ⟨handleClose_state st d room, hgone.not_in_room room,
    occupancy_disconnect st d room hnd hd hact, ?_, ?_⟩
  · intro c
    rw [handleClose_sends]
    constructor
    · intro hmem
      obtain ⟨a, ha, hae⟩ := List.mem_map.mp hmem
      have hac : a = c := congrArg Prod.fst hae
      subst hac
      obtain ⟨_, _, h3⟩ := mem_broadcastRecipients.mp ha
      exact mem_get_peers_iff.mpr ⟨(a, room), lookupA_mem h3, rfl, rfl⟩
    · intro hmem
      obtain ⟨p, hp, hpc, hpr⟩ := mem_get_peers_iff.mp hmem
      have hpe : p = (c, room) := by
        cases p
        simp only at hpc hpr
        simp [hpc, hpr]
      subst hpe
      have hlk : lookupA (st.disconnect d).client_rooms c = some room :=
        mem_lookupA hnd1 hp
      have hca : c ∈ (st.disconnect d).active_connections := by
        rw [hwf1]
        exact List.mem_map.mpr ⟨(c, room), hp, rfl⟩
      have hcd : c ≠ d := hgone.1 (c, room) hp
      exact List.mem_map.mpr
        ⟨c, mem_broadcastRecipients.mpr ⟨hca, hcd, hlk⟩, rfl⟩
  · intro ops
    exact (Gone.ops_pres ops _ hgone).not_in_room room

/-- Concrete two-client state used by the close-cleanup witness. -/
def closeWitnessSt : ConnectionManager :=
  ConnectionManager.mk [1, 2] [(1, "A")] [(1, "r"), (2, "r")]
    [(1, "ip1"), (2, "ip2")] 2 32

/-- Witness for `close_cleanup_spec`. -/
theorem close_cleanup_spec_witness :
    (handleClose closeWitnessSt 1 "r").1 = closeWitnessSt.disconnect 1 ∧
    (1 : Int) ∉ (closeWitnessSt.disconnect 1).get_peers_in_room "r" ∧
    occupancy (closeWitnessSt.disconnect 1) "r" + 1 = occupancy closeWitnessSt "r" ∧
    (∀ c, (c, OutMsg.peerDisconnected 1
        (closeWitnessSt.disconnect 1).active_connections.length
        (occupancy (closeWitnessSt.disconnect 1) "r")) ∈
          (handleClose closeWitnessSt 1 "r").2 ↔
      c ∈ (closeWitnessSt.disconnect 1).get_peers_in_room "r") ∧
    (∀ ops, (1 : Int) ∉
      (applyOps (closeWitnessSt.disconnect 1) ops).get_peers_in_room "r") := by
  exact close_cleanup_spec closeWitnessSt 1 "r" (by decide) (by decide) (by decide)
    (by decide)

/-! Claim C1: the capacity invariant along join traces. -/

theorem insertA_fresh {α : Type} {l : List (Int × α)} {k : Int} {v : α}
    (h : ∀ p ∈ l, p.1 ≠ k) : insertA l k v = l ++ [(k, v)] := by
  unfold insertA
  have hf : l.find? (fun p => p.1 == k) = none :=
    List.find?_eq_none.mpr (fun p hp => by simpa using h p hp)
  rw [hf]
  simp

theorem occupancy_eq (st : ConnectionManager) (r : String) :
    occupancy st r = (st.client_rooms.filter (fun p => p.2 == r)).length := by
  unfold occupancy ConnectionManager.get_peers_in_room
  rw [List.length_map]

theorem filter_length_append_single (l : List (Int × String)) (k : Int) (v r : String) :
    ((l ++ [(k, v)]).filter (fun p => p.2 == r)).length =
      (l.filter (fun p => p.2 == r)).length + (if v = r then 1 else 0) := by
  rw [List.filter_append]
  by_cases h : v = r <;> simp [List.filter_cons, h]

/-- The invariant the registry keeps along join-only traces. -/
def JoinInv (C : Nat) (st : ConnectionManager) : Prop :=
  st.max_peers_per_room = C ∧
  (∀ p ∈ st.client_rooms, p.1 ≤ st.client_counter) ∧
  (∀ r, occupancy st r ≤ C)

theorem JoinInv.base (C : Nat) : JoinInv C (ConnectionManager.init C) := by
  refine ⟨rfl, by simp [ConnectionManager.init], ?_⟩
  intro r
  rw [occupancy_eq]
  simp [ConnectionManager.init]

theorem JoinInv.join_step {C : Nat} {st : ConnectionManager} (h : JoinInv C st)
    (fd : MsgData) (ip : String) : JoinInv C (joinClient st fd ip) := by
  unfold joinClient
  dsimp only
  rcases hfind : st.find_available_room (pyOrDefault fd.roomId "default") with _ | rr
  · exact h
  · have hocc : occupancy st rr.1 < st.max_peers_per_room :=
      find_available_room_occ_lt (r := rr.1) (b := rr.2) hfind
    have hfresh : ∀ p ∈ st.client_rooms, p.1 ≠ st.client_counter + 1 := by
      intro p hp
      have := h.2.1 p hp
      omega
    have hrooms : insertA st.client_rooms (st.client_counter + 1) rr.1 =
        st.client_rooms ++ [(st.client_counter + 1, rr.1)] := insertA_fresh hfresh
    refine ⟨h.1, ?_, ?_⟩
    · show ∀ p ∈ insertA st.client_rooms (st.client_counter + 1) rr.1,
        p.1 ≤ st.client_counter + 1
      rw [hrooms]
      intro p hp
      rcases List.mem_append.mp hp with hp | hp
      · have := h.2.1 p hp
        omega
      · rw [List.mem_singleton.mp hp]
    · intro r
      rw [occupancy_eq]
      show ((insertA st.client_rooms (st.client_counter + 1) rr.1).filter
        (fun p => p.2 == r)).length ≤ C
      rw [hrooms, filter_length_append_single]
      rw [← occupancy_eq]
      by_cases hr : rr.1 = r
      · rw [if_pos hr]
        have h1 := h.1
        rw [← hr]
        have := hocc
        omega
      · rw [if_neg hr]
        have := h.2.2 r
        omega

theorem JoinInv.joins_pres {C : Nat} :
    ∀ (reqs : List JoinReq) (st : ConnectionManager), JoinInv C st →
    JoinInv C (applyJoins st reqs) := by
  intro reqs
  induction reqs with
  | nil => intro st h; exact h
  | cons r reqs ih => intro st h; exact ih _ (h.join_step r.first_data r.client_ip)

/-- C1: along every join-only trace from a fresh registry with capacity `C`,
no exact room string ever holds more than `C` clients; and (for positive
capacity) a joiner whose requested room already holds `C` clients is
registered under the overflow name with the smallest free index, every
smaller overflow index being exactly at capacity. -/
theorem join_capacity_invariant (C : Nat) (reqs : List JoinReq) :
    (∀ room, occupancy (applyJoins (ConnectionManager.init C) reqs) room ≤ C) ∧
    (1 ≤ C → ∀ q, occupancy (applyJoins (ConnectionManager.init C) reqs) q = C →
      ∃ n, 1 ≤ n ∧
        (applyJoins (ConnectionManager.init C) reqs).find_available_room q =
          some (overflowName q n, true) ∧
        occupancy (applyJoins (ConnectionManager.init C) reqs) (overflowName q n) < C ∧
        (∀ m, 1 ≤ m → m < n →
          occupancy (applyJoins (ConnectionManager.init C) reqs) (overflowName q m)
            = C) ∧
        (∀ fd ip, pyOrDefault fd.roomId "default" = q →
          lookupA (joinClient (applyJoins (ConnectionManager.init C) reqs) fd ip).client_rooms ((applyJoins (ConnectionManager.init C) reqs).client_counter + 1) =
          some (overflowName q n))) := by
  have hinv : JoinInv C (applyJoins (ConnectionManager.init C) reqs) :=
    JoinInv.joins_pres reqs _ (JoinInv.base C)
  refine ⟨hinv.2.2, ?_⟩
  intro hC q hq
  have hmax := hinv.1
  have hnl : ¬ occupancy (applyJoins (ConnectionManager.init C) reqs) q <
      (applyJoins (ConnectionManager.init C) reqs).max_peers_per_room := by
    rw [hmax]
    omega
  obtain ⟨n, h1, h2, h3, h4⟩ := find_available_room_of_full hnl (by rw [hmax]; exact hC)
  refine ⟨n, h1, h2, by rw [hmax] at h3; exact h3, ?_, ?_⟩
  · intro m hm1 hm2
    have hnot := h4 m hm1 hm2
    rw [hmax] at hnot
    have := hinv.2.2 (overflowName q m)
    omega
  · intro fd ip hreq
    unfold joinClient
    dsimp only
    rw [hreq, h2]
    exact lookupA_insertA_self _ _ _

/-- Witness for `join_capacity_invariant`: capacity 1, one join into `"r"`;
the room is then full and the capacity bound and overflow conclusion hold. -/
theorem join_capacity_invariant_witness :
    (∀ room, occupancy (applyJoins (ConnectionManager.init 1)
      [⟨{ MsgData.empty with roomId := some "r" }, "ip"⟩]) room ≤ 1) ∧
    (∃ n, 1 ≤ n ∧
      (applyJoins (ConnectionManager.init 1)
        [⟨{ MsgData.empty with roomId := some "r" }, "ip"⟩]).find_available_room "r" =
        some (overflowName "r" n, true) ∧
      occupancy (applyJoins (ConnectionManager.init 1)
        [⟨{ MsgData.empty with roomId := some "r" }, "ip"⟩]) (overflowName "r" n) < 1 ∧
      (∀ m, 1 ≤ m → m < n →
        occupancy (applyJoins (ConnectionManager.init 1)
          [⟨{ MsgData.empty with roomId := some "r" }, "ip"⟩]) (overflowName "r" m)
          = 1) ∧
      (∀ fd ip, pyOrDefault fd.roomId "default" = "r" →
        lookupA (joinClient (applyJoins (ConnectionManager.init 1)
            [⟨{ MsgData.empty with roomId := some "r" }, "ip"⟩]) fd ip).client_rooms
          ((applyJoins (ConnectionManager.init 1)
            [⟨{ MsgData.empty with roomId := some "r" }, "ip"⟩]).client_counter + 1) =
        some (overflowName "r" n))) := by
  exact ⟨(join_capacity_invariant 1
      [⟨{ MsgData.empty with roomId := some "r" }, "ip"⟩]).1,
    (join_capacity_invariant 1
      [⟨{ MsgData.empty with roomId := some "r" }, "ip"⟩]).2 (by decide) "r"
      (by decide)⟩
